import Mathlib

/-!
# ipc-bench: the shared-memory writer and the TCP reader

A shallow embedding of `src/shm/server.c` (`write_data`, `main`) and of
`src/tcp/client.c` (`get_address`, `read_data`), with the properties of the
handshake and of the single timed bulk transfer.

Bytes are natural numbers (`'*'` is 42, `'0'` 48, `'1'` 49, `'2'` 50).  A region
of memory is the list of its bytes, index 0 first.  What the other process or
the network does is an explicit argument: the stores of the reader between two
polls of the writer, the bytes the peer sent and how many of them each `recv`
call finds available.
-/

namespace IpcBench

/-- The character `'*'`, the fill pattern of the writer. -/
def CH_STAR : Nat := 42

/-- The character `'0'`. -/
def CH_0 : Nat := 48

/-- The character `'1'`: the reader is attached or ready. -/
def CH_1 : Nat := 49

/-- The character `'2'`: the payload is written or follows. -/
def CH_2 : Nat := 50

/-- Conversion of a C `int` to `size_t` on an LP64 platform: reduction modulo `2^64`. -/
def size_t (i : Int) : Nat := (i % 2 ^ 64).toNat

/-- The largest value of a C `int`. -/
def INT_MAX : Int := 2147483647

/-- How a run of a function ends: it returned, it loops forever in a state that
no longer changes, it waits forever inside a call that never returns, or it
touched memory outside the region it was given. -/
inductive Status where
  | returned
  | spinning
  | blocked
  | fault
  deriving DecidableEq

/-- Modelled from the spec: `throw` of `common.h`, which is not among the sources.
Section 7: a fatal condition terminates the process immediately with a diagnostic
message and a nonzero exit status.  The error of `Except` is that message. -/
def throw_exit {α : Type} (message : String) : Except String α := Except.error message

/-! ## `src/shm/server.c` -/

namespace Shm

/-- The operations `write_data` performs, in the order of the source text. -/
inductive WOp where
  /-- One evaluation of `*shared_memory != '1'` (line 6), with the value read. -/
  | poll (seen : Nat)
  /-- The call `usleep(1)` of the loop body (line 6). -/
  | usleep (usec : Nat)
  /-- The call `memset(shared_memory, c, n)` (line 7). -/
  | memset (c : Nat) (n : Nat)
  /-- The store `*shared_memory = v` (line 8). -/
  | store (v : Nat)
  deriving DecidableEq

/-- Whether an operation writes to the shared region. -/
def WOp.isWrite : WOp → Bool
  | .memset _ _ => true
  | .store _ => true
  | _ => false

/-- A run of `write_data`: each operation with the region as it is right after
it, how the run ends, and the region at that point. -/
structure WRun where
  steps : List (WOp × List Nat)
  status : Status
  mem : List Nat
  deriving DecidableEq

/-- The library call `memset(s, c, n)` on a region: the first `n` bytes become `c`;
`none` when `n` exceeds the region (a write out of bounds). -/
def memset (mem : List Nat) (c : Nat) (n : Nat) : Option (List Nat) :=
  if n ≤ mem.length then some (List.replicate n c ++ mem.drop n) else none

/-- What the reader process does to the control byte while the writer sleeps:
nothing, or a store of one value. -/
def reader_store (e : Option Nat) (mem : List Nat) : List Nat :=
  match e with
  | none => mem
  | some v => mem.set 0 v

/-- Lines 7 and 8 of `write_data`: the bulk write, then the flag store. -/
def write_data_finish (mem : List Nat) (bytes : Int) : WRun :=
  match memset mem CH_STAR (size_t bytes) with
  | none => ⟨[], Status.fault, mem⟩
  | some filled =>
    ⟨[(WOp.memset CH_STAR (size_t bytes), filled), (WOp.store CH_2, filled.set 0 CH_2)],
      Status.returned, filled.set 0 CH_2⟩

/-- Prepends steps to a run. -/
def WRun.after (pre : List (WOp × List Nat)) (r : WRun) : WRun :=
  ⟨pre ++ r.steps, r.status, r.mem⟩

/-- The function `write_data(shared_memory, bytes)` of `src/shm/server.c`:
`while (*shared_memory != '1') usleep(1); memset(shared_memory, '*', bytes);
*shared_memory = '2';`.  `env` lists what the reader does during each successive
`usleep`; once it is used up nobody else touches the region, so a poll that fails
then fails forever. -/
def write_data (mem : List Nat) (bytes : Int) : List (Option Nat) → WRun
  | [] =>
    match mem.head? with
    | none => ⟨[], Status.fault, mem⟩
    | some v =>
      if v = CH_1 then (write_data_finish mem bytes).after [(WOp.poll v, mem)]
      else ⟨[(WOp.poll v, mem), (WOp.usleep 1, mem)], Status.spinning, mem⟩
  | e :: es =>
    match mem.head? with
    | none => ⟨[], Status.fault, mem⟩
    | some v =>
      if v = CH_1 then (write_data_finish mem bytes).after [(WOp.poll v, mem)]
      else (write_data (reader_store e mem) bytes es).after
        [(WOp.poll v, mem), (WOp.usleep 1, reader_store e mem)]

/-- The operations of a run, without the regions. -/
def WRun.ops (r : WRun) : List WOp := r.steps.map Prod.fst

/-- The values the polls among the given operations observed, in order. -/
def observed : List WOp → List Nat
  | [] => []
  | WOp.poll v :: rest => v :: observed rest
  | _ :: rest => observed rest

/-- The three protocol values of the control byte: unset (a fresh segment is
zero-filled) or `'0'`, `'1'`, `'2'`. -/
def control_value (v : Nat) : Prop := v = 0 ∨ v = CH_0 ∨ v = CH_1 ∨ v = CH_2

instance (v : Nat) : Decidable (control_value v) := by
  unfold control_value; infer_instance

/-- The value `(void*)-1` that `shmat` returns on failure: the all-ones address. -/
def SHMAT_FAILED : Nat := size_t (-1)

/-- The comparison `p < q` of two pointers: the unsigned comparison of their
64-bit addresses. -/
def ptr_lt (p q : Nat) : Bool := decide (p % 2 ^ 64 < q % 2 ^ 64)

/-- What `shmat` answers: failure, or the address at which the region is mapped
together with the region found there. -/
inductive Attach where
  | failed
  | mapped (addr : Nat) (region : List Nat)
  deriving DecidableEq

/-- The pointer `shmat` returns. -/
def Attach.ptr : Attach → Nat
  | Attach.failed => SHMAT_FAILED
  | Attach.mapped addr _ => addr

/-- The memory behind the pointer `shmat` returns; nothing is mapped at `(void*)-1`. -/
def Attach.region : Attach → List Nat
  | Attach.failed => []
  | Attach.mapped _ region => region

/-- The calls of `main`, in the order of the source text. -/
inductive MainOp where
  /-- The call `shmget(6969, bytes, IPC_CREAT | IPC_EXCL | 0666)` (line 41). -/
  | shmget (key : Nat) (bytes : Int)
  /-- The call `shmat(segment_id, NULL, 0)` (line 64). -/
  | shmat (segment_id : Int)
  /-- The call `write_data(shared_memory, bytes)` (line 70). -/
  | write_data (shared_memory : Nat) (bytes : Int)
  /-- The call `shmdt(shared_memory)` (line 74). -/
  | shmdt (shared_memory : Nat)
  /-- The call `shmctl(segment_id, IPC_RMID, NULL)` (line 85). -/
  | shmctl_rmid (segment_id : Int)
  deriving DecidableEq

/-- A run of `main`: the calls made, and how the process ends: `Except.error` is
the message of `throw`, `Except.ok Status.returned` is `return EXIT_SUCCESS`, any
other status is that of a `write_data` that never returns. -/
structure MainRun where
  ops : List MainOp
  result : Except String Status

/-- The function `main` of `src/shm/server.c`.  `bytes` is what `get_bytes` (of
`common.h`) returns, `segment_id` what `shmget` returns, `attach` what `shmat`
does, `env` what the reader does while `write_data` sleeps. -/
def main (bytes : Int) (segment_id : Int) (attach : Attach) (env : List (Option Nat)) :
    MainRun :=
  if segment_id < 0 then
    ⟨[MainOp.shmget 6969 bytes], throw_exit "Error allocating segment!\n"⟩
  else if ptr_lt attach.ptr 0 then
    ⟨[MainOp.shmget 6969 bytes, MainOp.shmat segment_id], throw_exit "Error attaching segment"⟩
  else
    match (write_data attach.region bytes env).status with
    | Status.returned =>
      ⟨[MainOp.shmget 6969 bytes, MainOp.shmat segment_id,
          MainOp.write_data attach.ptr bytes, MainOp.shmdt attach.ptr,
          MainOp.shmctl_rmid segment_id],
        Except.ok Status.returned⟩
    | st =>
      ⟨[MainOp.shmget 6969 bytes, MainOp.shmat segment_id,
          MainOp.write_data attach.ptr bytes],
        Except.ok st⟩

end Shm

/-! ## `src/tcp/client.c` -/

namespace Tcp

/-- One node of the `struct addrinfo` list that `getaddrinfo` produced, with
what the system answers for it: the value `socket()` returns (a descriptor, or
-1) and the value `connect()` returns on that socket (0, or -1). -/
structure addrinfo where
  socket_result : Int
  connect_result : Int
  deriving DecidableEq

/-- The system calls of `get_address`. -/
inductive SysOp where
  /-- The call `socket(...)` for a candidate (line 28). -/
  | socket (candidate : addrinfo)
  /-- The call `connect(socket_descriptor, ...)` for a candidate (line 46). -/
  | connect (socket_descriptor : Int) (candidate : addrinfo)
  /-- The call `close(socket_descriptor)` (line 54). -/
  | close (socket_descriptor : Int)
  deriving DecidableEq

/-- The function `get_address(server_info)` of `src/tcp/client.c`, on the linked
list as a list: the system calls made, and the descriptor returned or the
message of `throw`.  A candidate without a socket is skipped (`continue`); after
the first candidate with a socket the loop is left (`break`) whatever `connect`
returned, `server_info` is then not `NULL`, and the descriptor is returned. -/
def get_address : List addrinfo → List SysOp × Except String Int
  | [] => ([], throw_exit "Error finding valid address!")
  | server_info :: ai_next =>
    if server_info.socket_result = -1 then
      (SysOp.socket server_info :: (get_address ai_next).1, (get_address ai_next).2)
    else
      (SysOp.socket server_info :: SysOp.connect server_info.socket_result server_info ::
          (if server_info.connect_result = 1 then [SysOp.close server_info.socket_result]
           else []),
        Except.ok server_info.socket_result)

/-- Whether `connect` succeeded for a candidate: it got a socket and `connect`
returned 0. -/
def addrinfo.connected (a : addrinfo) : Prop := a.socket_result ≠ -1 ∧ a.connect_result = 0

instance (a : addrinfo) : Decidable a.connected := by
  unfold addrinfo.connected; infer_instance

/-- The receiving side of the connected socket: the bytes the peer sent that are
not yet received, in order, and for each coming `recv` call that returns, how many
bytes it finds (0: the call returns without data).  After the last entry a `recv`
call never returns. -/
structure Sock where
  inbound : List Nat
  avail : List Nat
  deriving DecidableEq

/-- The bytes one `recv` call of maximum size `len` takes from the stream when
`found` bytes are there. -/
def delivered (inbound : List Nat) (found len : Nat) : List Nat :=
  inbound.take (min found len)

/-- The buffer after `recv` stored the bytes `got` at its start. -/
def stored (buffer got : List Nat) : List Nat := got ++ buffer.drop got.length

/-- The call `recv(descriptor, buffer, len, 0)`: `none` when it never returns, else
the socket and the buffer after the call, and the bytes received. -/
def recv (s : Sock) (buffer : List Nat) (len : Nat) : Option (Sock × List Nat × List Nat) :=
  match s.avail with
  | [] => none
  | found :: rest =>
    some (⟨s.inbound.drop (delivered s.inbound found len).length, rest⟩,
      stored buffer (delivered s.inbound found len), delivered s.inbound found len)

/-- The operations of `read_data`, in the order of the source text. -/
inductive ROp where
  /-- The call `malloc(bytes)` (line 76). -/
  | malloc (size : Nat)
  /-- The store `*buffer = '1'` (line 80). -/
  | store (v : Nat)
  /-- The call `send(descriptor, buffer, 1, 0)` (line 83), with the byte sent. -/
  | send (data : List Nat)
  /-- One call `recv(descriptor, buffer, 1, 0)` of the loop (line 86), with the bytes received. -/
  | recv_marker (got : List Nat)
  /-- The call `now()` (line 89). -/
  | now
  /-- The call `recv(descriptor, buffer, bytes, 0)` (line 90), with the bytes received. -/
  | recv_bulk (len : Nat) (got : List Nat)
  /-- The call `benchmark(start)` (line 91). -/
  | benchmark
  /-- The call `close(descriptor)` of `cleanup` (line 70). -/
  | close
  /-- The call `free(buffer)` of `cleanup` (line 71). -/
  | free
  deriving DecidableEq

/-- A run of `read_data`: the operations issued, how the run ends, and the buffer
as it is after the last of them that touched it (before `free`). -/
structure RRun where
  ops : List ROp
  status : Status
  buffer : List Nat
  deriving DecidableEq

/-- Prepends operations to a run. -/
def RRun.after (pre : List ROp) (r : RRun) : RRun := ⟨pre ++ r.ops, r.status, r.buffer⟩

/-- Lines 89 to 93 of `read_data`: the timestamp, the one bulk `recv`, the
report, the teardown. -/
def read_data_transfer (s : Sock) (buffer : List Nat) (len : Nat) : RRun :=
  match recv s buffer len with
  | none => ⟨[ROp.now, ROp.recv_bulk len []], Status.blocked, buffer⟩
  | some (_, filled, got) =>
    ⟨[ROp.now, ROp.recv_bulk len got, ROp.benchmark, ROp.close, ROp.free],
      Status.returned, filled⟩

/-- Lines 85 to 93 of `read_data`: `do { recv(descriptor, buffer, 1, 0); }
while (*buffer != '2');` and what follows.  The recursion is on the `avail` list of
the socket. -/
def read_data_loop (len : Nat) (buffer inbound : List Nat) : List Nat → RRun
  | [] => ⟨[ROp.recv_marker []], Status.blocked, buffer⟩
  | found :: rest =>
    if (stored buffer (delivered inbound found 1)).head? = some CH_2 then
      (read_data_transfer ⟨inbound.drop (delivered inbound found 1).length, rest⟩
          (stored buffer (delivered inbound found 1)) len).after
        [ROp.recv_marker (delivered inbound found 1)]
    else
      (read_data_loop len (stored buffer (delivered inbound found 1))
          (inbound.drop (delivered inbound found 1).length) rest).after
        [ROp.recv_marker (delivered inbound found 1)]

/-- The block `malloc(size)` returns: `size` bytes of whatever the heap held. -/
def malloc (heap : Nat → Nat) (size : Nat) : List Nat := (List.range size).map heap

/-- The function `read_data(descriptor, bytes)` of `src/tcp/client.c`.  `heap` is
the content of the memory `malloc` hands out.  For `bytes <= 0` no byte of the
block may be written (`malloc(0)`, or a size above any object for a negative
`int` converted to `size_t`), so the store of line 80 is a fault. -/
def read_data (heap : Nat → Nat) (descriptor : Sock) (bytes : Int) : RRun :=
  if bytes ≤ 0 then ⟨[ROp.malloc (size_t bytes), ROp.store CH_1], Status.fault, []⟩
  else
    (read_data_loop (size_t bytes) ((malloc heap (size_t bytes)).set 0 CH_1)
        descriptor.inbound descriptor.avail).after
      [ROp.malloc (size_t bytes), ROp.store CH_1,
        ROp.send (((malloc heap (size_t bytes)).set 0 CH_1).take 1)]

end Tcp


/-! ## Properties of `write_data` and `main` of `src/shm/server.c` -/

/-- For a count that is a positive C `int`, the conversion to `size_t` changes nothing. -/
theorem size_t_of_count (b : Int) (h0 : 0 ≤ b) (h1 : b ≤ INT_MAX) : size_t b = b.toNat := by
  unfold size_t
  rw [Int.emod_eq_of_lt h0 (by unfold INT_MAX at h1; omega)]

namespace Shm

theorem memset_pos (mem : List Nat) (c n : Nat) (hn : 1 ≤ n) (hlen : n ≤ mem.length) :
    memset mem c n = some (c :: (List.replicate (n - 1) c ++ mem.drop n)) := by
  unfold memset
  rw [if_pos hlen]
  obtain ⟨k, rfl⟩ : ∃ k, n = k + 1 := ⟨n - 1, by omega⟩
  simp [List.replicate_succ]

/-- When the control byte already reads `'1'`, the first poll ends the loop. -/
theorem write_data_ready (mem : List Nat) (bytes : Int) (env : List (Option Nat))
    (hc : mem.head? = some CH_1) :
    write_data mem bytes env = (write_data_finish mem bytes).after [(WOp.poll CH_1, mem)] := by
  cases env <;> simp [write_data, hc]

/-- The bulk write and the flag store, for a count within the region. -/
theorem write_data_finish_pos (mem : List Nat) (bytes : Int) (hb : 1 ≤ bytes)
    (hi : bytes ≤ INT_MAX) (hlen : bytes ≤ mem.length) :
    write_data_finish mem bytes =
      ⟨[(WOp.memset CH_STAR bytes.toNat,
          CH_STAR :: (List.replicate (bytes.toNat - 1) CH_STAR ++ mem.drop bytes.toNat)),
        (WOp.store CH_2,
          CH_2 :: (List.replicate (bytes.toNat - 1) CH_STAR ++ mem.drop bytes.toNat))],
       Status.returned,
       CH_2 :: (List.replicate (bytes.toNat - 1) CH_STAR ++ mem.drop bytes.toNat)⟩ := by
  unfold write_data_finish
  rw [size_t_of_count bytes (by omega) hi, memset_pos mem CH_STAR bytes.toNat (by omega) (by omega)]
  simp

theorem ops_after (pre : List (WOp × List Nat)) (r : WRun) :
    (r.after pre).ops = pre.map Prod.fst ++ r.ops := by
  simp [WRun.after, WRun.ops]

theorem write_data_finish_ops (mem : List Nat) (bytes : Int) :
    (write_data_finish mem bytes).ops = [] ∨
    (write_data_finish mem bytes).ops = [WOp.memset CH_STAR (size_t bytes), WOp.store CH_2] := by
  unfold write_data_finish
  cases memset mem CH_STAR (size_t bytes) <;> simp [WRun.ops]

/-- The four shapes of the operations of a run, by its first poll. -/
theorem write_data_ops_cases (mem : List Nat) (bytes : Int) (env : List (Option Nat)) :
    (write_data mem bytes env).ops = [] ∨
    (write_data mem bytes env).ops = WOp.poll CH_1 :: (write_data_finish mem bytes).ops ∨
    (∃ v, v ≠ CH_1 ∧ env = [] ∧ (write_data mem bytes env).ops = [WOp.poll v, WOp.usleep 1]) ∨
    (∃ v e es, v ≠ CH_1 ∧ env = e :: es ∧ (write_data mem bytes env).ops =
      WOp.poll v :: WOp.usleep 1 :: (write_data (reader_store e mem) bytes es).ops) := by
  cases env with
  | nil =>
    unfold write_data
    cases hh : mem.head? with
    | none => left; simp [WRun.ops]
    | some v =>
      by_cases hv : v = CH_1
      · right; left; simp [hv, ops_after]
      · right; right; left; exact ⟨v, hv, rfl, by simp [hv, WRun.ops]⟩
  | cons e es =>
    rw [write_data]
    cases hh : mem.head? with
    | none => left; simp [WRun.ops]
    | some v =>
      by_cases hv : v = CH_1
      · right; left; simp [hv, ops_after]
      · right; right; right; exact ⟨v, e, es, hv, rfl, by simp [hv, ops_after]⟩

/-- A write in a run whose first poll read `'1'` comes after that poll. -/
theorem split_ready (mem : List Nat) (bytes : Int) (ops : List WOp)
    (pre : List WOp) (op : WOp) (post : List WOp)
    (h : ops = WOp.poll CH_1 :: (write_data_finish mem bytes).ops)
    (hsplit : ops = pre ++ op :: post) (hw : op.isWrite = true) :
    WOp.poll CH_1 ∈ pre ∧
    ∀ k : Nat, (∀ v ∈ (observed ops).take k, v ≠ CH_1) → k + 1 ≤ (observed pre).length := by
  match pre, hsplit with
  | [], hs =>
    rw [h] at hs
    simp at hs
    rw [← hs.1] at hw
    simp [WOp.isWrite] at hw
  | x :: pre', hs =>
    rw [h] at hs
    simp at hs
    obtain ⟨rfl, -⟩ := hs
    refine ⟨by simp, ?_⟩
    intro k hk
    cases k with
    | zero => simp [observed]
    | succ k =>
      rw [h] at hk
      simp [observed] at hk

/-- C2: in the memory writer, for every region, every count and every behaviour of
the reader (hence every sequence of values its polls observe), any write to the
shared region (the `memset` or the flag store) comes after a poll that observed
`'1'`; and if the first `k` observed values are not `'1'`, at least `k + 1` polls
come before that write. -/
theorem write_data_waits_for_ready (mem : List Nat) (bytes : Int) (env : List (Option Nat))
    (pre : List WOp) (op : WOp) (post : List WOp)
    (hsplit : (write_data mem bytes env).ops = pre ++ op :: post) (hw : op.isWrite = true) :
    WOp.poll CH_1 ∈ pre ∧
    ∀ k : Nat, (∀ v ∈ (observed (write_data mem bytes env).ops).take k, v ≠ CH_1) →
      k + 1 ≤ (observed pre).length := by
  induction env generalizing mem pre with
  | nil =>
    rcases write_data_ops_cases mem bytes [] with h | h | ⟨v, hv, -, h⟩ | ⟨v, e, es, -, he, -⟩
    · rw [h] at hsplit; simp at hsplit
    · exact split_ready mem bytes _ pre op post h hsplit hw
    · rw [h] at hsplit
      have hmem : op ∈ [WOp.poll v, WOp.usleep 1] := by rw [hsplit]; simp
      simp at hmem
      rcases hmem with rfl | rfl <;> simp [WOp.isWrite] at hw
    · cases he
  | cons e es ih =>
    rcases write_data_ops_cases mem bytes (e :: es) with
      h | h | ⟨v, -, he, -⟩ | ⟨v, e', es', hv, he, h⟩
    · rw [h] at hsplit; simp at hsplit
    · exact split_ready mem bytes _ pre op post h hsplit hw
    · cases he
    · cases he
      rw [h] at hsplit ⊢
      match pre, hsplit with
      | [], hs =>
        simp at hs
        rw [← hs.1] at hw
        simp [WOp.isWrite] at hw
      | [x], hs =>
        simp at hs
        rw [← hs.2.1] at hw
        simp [WOp.isWrite] at hw
      | x :: y :: pre', hs =>
        simp at hs
        obtain ⟨rfl, rfl, hs⟩ := hs
        obtain ⟨h1, h2⟩ := ih (reader_store e mem) pre' hs
        refine ⟨by simp [h1], ?_⟩
        intro k hk
        cases k with
        | zero => simp [observed]
        | succ k =>
          simp only [observed, List.take_succ_cons, List.mem_cons, forall_eq_or_imp] at hk
          have := h2 k hk.2
          simp [observed]; omega

/-- The writer at a region that reads `'0'`, with a reader that stores `'1'` during
the second sleep: three polls precede the `memset`. -/
theorem write_data_waits_for_ready_witness :
    (write_data [CH_0, 0, 0] 3 [none, some CH_1]).ops =
      [WOp.poll CH_0, WOp.usleep 1, WOp.poll CH_0, WOp.usleep 1, WOp.poll CH_1] ++
        WOp.memset CH_STAR 3 :: [WOp.store CH_2] ∧
    (WOp.poll CH_1 ∈
        [WOp.poll CH_0, WOp.usleep 1, WOp.poll CH_0, WOp.usleep 1, WOp.poll CH_1] ∧
      ∀ k : Nat,
        (∀ v ∈ (observed (write_data [CH_0, 0, 0] 3 [none, some CH_1]).ops).take k, v ≠ CH_1) →
        k + 1 ≤ (observed
          [WOp.poll CH_0, WOp.usleep 1, WOp.poll CH_0, WOp.usleep 1, WOp.poll CH_1]).length) :=
  ⟨by decide,
    write_data_waits_for_ready [CH_0, 0, 0] 3 [none, some CH_1]
      [WOp.poll CH_0, WOp.usleep 1, WOp.poll CH_0, WOp.usleep 1, WOp.poll CH_1]
      (WOp.memset CH_STAR 3) [WOp.store CH_2] (by decide) (by decide)⟩

/-- C3: for every `bytes >= 1` (a C `int`) and every region of at least `bytes`
bytes whose control byte reads `'1'`, `write_data` returns, and then the control
byte is `'2'`, the region has its length, and every byte at an index `i` with
`1 <= i < bytes` is `'*'`. -/
theorem write_data_fills_region (mem : List Nat) (bytes : Int) (env : List (Option Nat))
    (hb : 1 ≤ bytes) (hi : bytes ≤ INT_MAX) (hlen : bytes ≤ mem.length)
    (hc : mem.head? = some CH_1) :
    (write_data mem bytes env).status = Status.returned ∧
    (write_data mem bytes env).mem.head? = some CH_2 ∧
    (write_data mem bytes env).mem.length = mem.length ∧
    ∀ i : Nat, 1 ≤ i → (i : Int) < bytes → (write_data mem bytes env).mem[i]? = some CH_STAR := by
  rw [write_data_ready mem bytes env hc, write_data_finish_pos mem bytes hb hi hlen]
  refine ⟨rfl, rfl, ?_, ?_⟩
  · simp [WRun.after]
    omega
  · intro i h1 h2
    obtain ⟨j, rfl⟩ : ∃ j, i = j + 1 := ⟨i - 1, by omega⟩
    have hj : j < bytes.toNat - 1 := by omega
    simp [WRun.after, List.getElem?_append_left, hj]

/-- A region of four bytes and a count of three: the fourth byte is left alone. -/
theorem write_data_fills_region_witness :
    (write_data [CH_1, 0, 0, 7] 3 []).mem = [CH_2, CH_STAR, CH_STAR, 7] ∧
    ((write_data [CH_1, 0, 0, 7] 3 []).status = Status.returned ∧
      (write_data [CH_1, 0, 0, 7] 3 []).mem.head? = some CH_2 ∧
      (write_data [CH_1, 0, 0, 7] 3 []).mem.length = [CH_1, 0, 0, 7].length ∧
      ∀ i : Nat, 1 ≤ i → (i : Int) < 3 →
        (write_data [CH_1, 0, 0, 7] 3 []).mem[i]? = some CH_STAR) :=
  ⟨by decide,
    write_data_fills_region [CH_1, 0, 0, 7] 3 [] (by decide) (by decide) (by decide) rfl⟩

theorem reader_store_length (e : Option Nat) (mem : List Nat) :
    (reader_store e mem).length = mem.length := by
  cases e <;> simp [reader_store]

theorem reader_store_drop (e : Option Nat) (mem : List Nat) (n : Nat) (hn : 1 ≤ n) :
    (reader_store e mem).drop n = mem.drop n := by
  obtain ⟨k, rfl⟩ : ∃ k, n = k + 1 := ⟨n - 1, by omega⟩
  cases e with
  | none => rfl
  | some v => cases mem <;> simp [reader_store]

theorem reader_store_head (e : Option Nat) (mem : List Nat)
    (h0 : ∃ v, mem.head? = some v ∧ control_value v)
    (he : ∀ v, e = some v → control_value v) :
    ∃ v, (reader_store e mem).head? = some v ∧ control_value v := by
  cases e with
  | none => exact h0
  | some w =>
    obtain ⟨v, hv, -⟩ := h0
    cases mem with
    | nil => simp at hv
    | cons a t => exact ⟨w, by simp [reader_store], he w rfl⟩

/-- The states of a run, with the part of the region beyond `bytes` named `tl`. -/
theorem write_data_steps_ok (bytes : Int) (hb : 1 ≤ bytes) (hi : bytes ≤ INT_MAX)
    (tl : List Nat) (env : List (Option Nat)) (mem : List Nat)
    (hlen : bytes ≤ mem.length) (htl : mem.drop bytes.toNat = tl)
    (h0 : ∃ v, mem.head? = some v ∧ control_value v)
    (henv : ∀ v, some v ∈ env → control_value v) :
    ∀ s ∈ (write_data mem bytes env).steps,
      (s.1.isWrite = false → ∃ v, s.2.head? = some v ∧ control_value v) ∧
      (∀ c n, s.1 = WOp.memset c n → s.2 = List.replicate bytes.toNat CH_STAR ++ tl) ∧
      (∀ x, s.1 = WOp.store x →
        s.2 = CH_2 :: (List.replicate (bytes.toNat - 1) CH_STAR ++ tl)) := by
  have hfin : ∀ mem : List Nat, (bytes ≤ mem.length) → mem.drop bytes.toNat = tl →
      (∃ v, mem.head? = some v ∧ control_value v) → ∀ v,
      ∀ s ∈ ((write_data_finish mem bytes).after [(WOp.poll v, mem)]).steps,
      (s.1.isWrite = false → ∃ v, s.2.head? = some v ∧ control_value v) ∧
      (∀ c n, s.1 = WOp.memset c n → s.2 = List.replicate bytes.toNat CH_STAR ++ tl) ∧
      (∀ x, s.1 = WOp.store x →
        s.2 = CH_2 :: (List.replicate (bytes.toNat - 1) CH_STAR ++ tl)) := by
    intro mem hlen htl h0 v s hs
    rw [write_data_finish_pos mem bytes hb hi hlen, htl] at hs
    simp only [WRun.after, List.singleton_append, List.mem_cons, List.mem_singleton,
      List.not_mem_nil, or_false] at hs
    obtain ⟨k, hk⟩ : ∃ k, bytes.toNat = k + 1 := ⟨bytes.toNat - 1, by omega⟩
    rcases hs with rfl | rfl | rfl
    · exact ⟨fun _ => h0, by simp, by simp⟩
    · refine ⟨by simp [WOp.isWrite], ?_, by simp⟩
      intro c n _
      simp [hk, List.replicate_succ]
    · exact ⟨by simp [WOp.isWrite], by simp, by simp⟩
  induction env generalizing mem with
  | nil =>
    rw [write_data]
    obtain ⟨v, hv, hcv⟩ := h0
    rw [hv]
    by_cases h1 : v = CH_1
    · simp only [h1, if_true]
      exact hfin mem hlen htl ⟨v, hv, hcv⟩ CH_1
    · simp only [h1, if_false]
      intro s hs
      simp only [List.mem_cons, List.mem_singleton, List.not_mem_nil, or_false] at hs
      rcases hs with rfl | rfl
      · exact ⟨fun _ => ⟨v, hv, hcv⟩, by simp, by simp⟩
      · exact ⟨fun _ => ⟨v, hv, hcv⟩, by simp, by simp⟩
  | cons e es ih =>
    rw [write_data]
    obtain ⟨v, hv, hcv⟩ := h0
    rw [hv]
    by_cases h1 : v = CH_1
    · simp only [h1, if_true]
      exact hfin mem hlen htl ⟨v, hv, hcv⟩ CH_1
    · simp only [h1, if_false]
      have hhead := reader_store_head e mem ⟨v, hv, hcv⟩
        (fun w hw => henv w (by simp [hw]))
      intro s hs
      simp only [WRun.after, List.cons_append, List.nil_append, List.mem_cons] at hs
      rcases hs with rfl | rfl | hs
      · exact ⟨fun _ => ⟨v, hv, hcv⟩, by simp, by simp⟩
      · exact ⟨fun _ => hhead, by simp, by simp⟩
      · refine ih (reader_store e mem) ?_ ?_ hhead (fun w hw => henv w (by simp [hw])) s hs
        · rw [reader_store_length]; exact hlen
        · rw [reader_store_drop e mem _ (by omega)]; exact htl

/-- C10, as the claim states it, fails: with a region `['1', 0]` and `bytes = 2` the
state right after the bulk write has the control byte `'*'`, which is none of the
protocol values; the bulk write does not leave the control byte at `'1'`. -/
theorem write_data_control_byte_counterexample :
    ¬ (∀ s ∈ (write_data [CH_1, 0] 2 []).steps,
        ∃ v, s.2.head? = some v ∧ control_value v) := by
  intro h
  obtain ⟨v, hv, hc⟩ := h (WOp.memset CH_STAR 2, [CH_STAR, CH_STAR]) (by decide)
  simp only [List.head?_cons, Option.some.injEq] at hv
  subst hv
  revert hc
  decide

/-- C10, amended: for every `bytes >= 1` (a C `int`), every region of at least
`bytes` bytes whose control byte holds a protocol value, and every reader that
stores only protocol values, in every state reached during `write_data`: after a
poll or a sleep the control byte holds a protocol value; after the bulk write the
bytes at the indices below `bytes`, the control byte among them, are `'*'` and the
rest of the region is as it was; after the flag store the control byte is `'2'`,
the bytes at `1 <= i < bytes` are `'*'` and the rest is as it was. -/
theorem write_data_control_byte_states (mem : List Nat) (bytes : Int)
    (env : List (Option Nat)) (hb : 1 ≤ bytes) (hi : bytes ≤ INT_MAX)
    (hlen : bytes ≤ mem.length)
    (h0 : ∃ v, mem.head? = some v ∧ control_value v)
    (henv : ∀ v, some v ∈ env → control_value v) :
    ∀ s ∈ (write_data mem bytes env).steps,
      (s.1.isWrite = false → ∃ v, s.2.head? = some v ∧ control_value v) ∧
      (∀ c n, s.1 = WOp.memset c n →
        s.2 = List.replicate bytes.toNat CH_STAR ++ mem.drop bytes.toNat) ∧
      (∀ x, s.1 = WOp.store x →
        s.2 = CH_2 :: (List.replicate (bytes.toNat - 1) CH_STAR ++ mem.drop bytes.toNat)) :=
  write_data_steps_ok bytes hb hi (mem.drop bytes.toNat) env mem hlen rfl h0 henv

/-- A region `['0', 0, 7]`, a count of two, and a reader that stores `'1'` during
the first sleep. -/
theorem write_data_control_byte_states_witness :
    (write_data [CH_0, 0, 7] 2 [some CH_1]).steps =
      [(WOp.poll CH_0, [CH_0, 0, 7]), (WOp.usleep 1, [CH_1, 0, 7]),
        (WOp.poll CH_1, [CH_1, 0, 7]), (WOp.memset CH_STAR 2, [CH_STAR, CH_STAR, 7]),
        (WOp.store CH_2, [CH_2, CH_STAR, 7])] ∧
    ∀ s ∈ (write_data [CH_0, 0, 7] 2 [some CH_1]).steps,
      (s.1.isWrite = false → ∃ v, s.2.head? = some v ∧ control_value v) ∧
      (∀ c n, s.1 = WOp.memset c n →
        s.2 = List.replicate (2 : Int).toNat CH_STAR ++ [CH_0, 0, 7].drop (2 : Int).toNat) ∧
      (∀ x, s.1 = WOp.store x →
        s.2 = CH_2 :: (List.replicate ((2 : Int).toNat - 1) CH_STAR ++
          [CH_0, 0, 7].drop (2 : Int).toNat)) :=
  ⟨by decide,
    write_data_control_byte_states [CH_0, 0, 7] 2 [some CH_1] (by decide) (by decide)
      (by decide) ⟨CH_0, rfl, by decide⟩
      (by intro v hv; simp at hv; subst hv; decide)⟩

/-- The comparison of a pointer with the null pointer by `<` is false for every
address. -/
theorem ptr_lt_null (p : Nat) : ptr_lt p 0 = false := by
  simp [ptr_lt]

/-- Whatever `shmget` and `shmat` answer, `main` never ends with the attach error. -/
theorem main_never_reports_attach_error (bytes : Int) (segment_id : Int) (attach : Attach)
    (env : List (Option Nat)) :
    (main bytes segment_id attach env).result ≠ Except.error "Error attaching segment" := by
  unfold main
  rw [ptr_lt_null]
  by_cases hs : segment_id < 0
  · rw [if_pos hs]
    simp only [throw_exit, ne_eq, Except.error.injEq]
    decide
  · rw [if_neg hs]
    simp only [Bool.false_eq_true, if_false]
    split <;> simp

/-- C9, the code at a failed attach: when `shmget` succeeded (identifier 0) and
`shmat` returns `(void*)-1`, the check `shared_memory < (char*)0` does not fire for
any `bytes`; `main` goes on to call `write_data` on the pointer `(void*)-1`, where
the first read is outside any mapped memory, and no attach error is reported. -/
theorem main_calls_write_data_after_failed_attach (bytes : Int) (env : List (Option Nat)) :
    (main bytes 0 Attach.failed env).ops =
      [MainOp.shmget 6969 bytes, MainOp.shmat 0, MainOp.write_data SHMAT_FAILED bytes] ∧
    (main bytes 0 Attach.failed env).result = Except.ok Status.fault ∧
    SHMAT_FAILED = 2 ^ 64 - 1 := by
  have hw : (write_data [] bytes env).status = Status.fault := by
    cases env <;> simp [write_data]
  refine ⟨?_, ?_, by decide⟩
  · simp [main, ptr_lt_null, Attach.region, Attach.ptr, hw]
  · simp [main, ptr_lt_null, Attach.region, Attach.ptr, hw]

end Shm

/-! ## Properties of `get_address` and `read_data` of `src/tcp/client.c` -/

namespace Tcp

/-- What `get_address` does: the candidates without a socket are skipped, and the
first candidate with a socket ends the search, whatever `connect` returned for it. -/
theorem get_address_first_socket (skipped : List addrinfo) (a : addrinfo) (rest : List addrinfo)
    (hs : ∀ s ∈ skipped, s.socket_result = -1) (ha : a.socket_result ≠ -1) :
    get_address (skipped ++ a :: rest) =
      (skipped.map SysOp.socket ++ SysOp.socket a :: SysOp.connect a.socket_result a ::
          (if a.connect_result = 1 then [SysOp.close a.socket_result] else []),
        Except.ok a.socket_result) := by
  induction skipped with
  | nil => simp [get_address, ha]
  | cons s t ih =>
    have h1 : s.socket_result = -1 := hs s (by simp)
    have h2 := ih (fun x hx => hs x (by simp [hx]))
    simp [get_address, h1, h2]

/-- The fatal error of `get_address` is reported exactly when no candidate has a socket. -/
theorem get_address_error_iff (l : List addrinfo) :
    (get_address l).2 = Except.error "Error finding valid address!" ↔
      ∀ a ∈ l, a.socket_result = -1 := by
  induction l with
  | nil => simp [get_address, throw_exit]
  | cons a t ih =>
    by_cases h : a.socket_result = -1
    · simp [get_address, h, ih]
    · simp [get_address, h]

/-- When some candidate connects, `get_address` does not fail. -/
theorem get_address_ok_of_connected (l : List addrinfo) (h : ∃ a ∈ l, a.connected) :
    ∃ fd, (get_address l).2 = Except.ok fd := by
  induction l with
  | nil => simp at h
  | cons a t ih =>
    by_cases hs : a.socket_result = -1
    · obtain ⟨b, hb, hc⟩ := h
      have hbt : b ∈ t := by
        rcases List.mem_cons.mp hb with rfl | hbt
        · exact absurd hs hc.1
        · exact hbt
      obtain ⟨fd, hfd⟩ := ih ⟨b, hbt, hc⟩
      exact ⟨fd, by simp [get_address, hs, hfd]⟩
    · exact ⟨a.socket_result, by simp [get_address, hs]⟩

/-- C5, the code at a list of two candidates, the first with a socket (descriptor
3) whose `connect` fails, the second with a socket (descriptor 4) whose `connect`
succeeds: `get_address` returns descriptor 3, that of the candidate whose connect
failed, and makes no system call for the second candidate. -/
theorem get_address_returns_unconnected_socket :
    get_address [⟨3, -1⟩, ⟨4, 0⟩] =
      ([SysOp.socket ⟨3, -1⟩, SysOp.connect 3 ⟨3, -1⟩], Except.ok 3) ∧
    ¬ (addrinfo.mk 3 (-1)).connected ∧ (addrinfo.mk 4 0).connected :=
  ⟨rfl, by decide, by decide⟩

/-- C6, the code at a list of one candidate with a socket (descriptor 3) whose
`connect` fails: no candidate connects, and `get_address` reports no error but
returns descriptor 3. -/
theorem get_address_no_error_when_connect_fails :
    get_address [⟨3, -1⟩] = ([SysOp.socket ⟨3, -1⟩, SysOp.connect 3 ⟨3, -1⟩], Except.ok 3) ∧
    ¬ ∃ a ∈ [addrinfo.mk 3 (-1)], a.connected :=
  ⟨rfl, by decide⟩

theorem after_after (a b : List ROp) (r : RRun) : (r.after a).after b = r.after (b ++ a) := by
  simp [RRun.after]

theorem delivered_none (inbound : List Nat) (len : Nat) : delivered inbound 0 len = [] := by
  simp [delivered]

theorem delivered_length_le (inbound : List Nat) (found len : Nat) :
    (delivered inbound found len).length ≤ len := by
  simp only [delivered, List.length_take]
  omega

theorem stored_nil (buffer : List Nat) : stored buffer [] = buffer := by
  simp [stored]

theorem read_data_loop_idle (len : Nat) (inbound rest : List Nat) (z : Nat) (buffer : List Nat)
    (hb : buffer.head? ≠ some CH_2) :
    read_data_loop len buffer inbound (List.replicate z 0 ++ rest) =
      (read_data_loop len buffer inbound rest).after (List.replicate z (ROp.recv_marker [])) := by
  induction z with
  | zero => simp [RRun.after]
  | succ z ih =>
    rw [List.replicate_succ, List.cons_append, read_data_loop]
    simp only [delivered_none, stored_nil, List.length_nil, List.drop_zero]
    rw [if_neg hb, ih, after_after]
    simp [List.replicate_succ]

theorem read_data_loop_marker (len : Nat) (P rest buffer : List Nat) (a1 a2 : Nat)
    (h1 : 1 ≤ a1) :
    read_data_loop len buffer (CH_2 :: P) (a1 :: a2 :: rest) =
      ⟨[ROp.recv_marker [CH_2], ROp.now, ROp.recv_bulk len (P.take (min a2 len)),
          ROp.benchmark, ROp.close, ROp.free],
        Status.returned, stored (CH_2 :: buffer.drop 1) (P.take (min a2 len))⟩ := by
  have hd : delivered (CH_2 :: P) a1 1 = [CH_2] := by
    have : min a1 1 = 1 := by omega
    simp [delivered, this]
  rw [read_data_loop]
  simp only [hd]
  simp [stored, read_data_transfer, recv, delivered, RRun.after]

theorem malloc_length (heap : Nat → Nat) (n : Nat) : (malloc heap n).length = n := by
  simp [malloc]

theorem read_data_after_marker (heap : Nat → Nat) (P : List Nat) (bytes : Int)
    (z a1 a2 : Nat) (rest : List Nat) (hb : 0 < bytes) (hi : bytes ≤ INT_MAX) (h1 : 1 ≤ a1) :
    read_data heap ⟨CH_2 :: P, List.replicate z 0 ++ a1 :: a2 :: rest⟩ bytes =
      ⟨[ROp.malloc bytes.toNat, ROp.store CH_1, ROp.send [CH_1]] ++
          List.replicate z (ROp.recv_marker []) ++
          [ROp.recv_marker [CH_2], ROp.now,
            ROp.recv_bulk bytes.toNat (P.take (min a2 bytes.toNat)),
            ROp.benchmark, ROp.close, ROp.free],
        Status.returned,
        stored (CH_2 :: (malloc heap bytes.toNat).drop 1) (P.take (min a2 bytes.toNat))⟩ := by
  unfold read_data
  rw [if_neg (by omega), size_t_of_count bytes (by omega) hi]
  obtain ⟨k, hk⟩ : ∃ k, bytes.toNat = k + 1 := ⟨bytes.toNat - 1, by omega⟩
  have hm : malloc heap (k + 1) = heap 0 :: (malloc heap (k + 1)).drop 1 := by
    simp [malloc, List.range_succ_eq_map]
  rw [hk]
  have hset : (malloc heap (k + 1)).set 0 CH_1 = CH_1 :: (malloc heap (k + 1)).drop 1 := by
    rw [hm]; simp
  rw [hset]
  rw [read_data_loop_idle _ _ _ _ _ (by simp [CH_1, CH_2]), read_data_loop_marker _ _ _ _ _ _ h1]
  simp [RRun.after]

theorem read_data_transfer_cases (s : Sock) (buffer : List Nat) (len : Nat) :
    ((read_data_transfer s buffer len).status = Status.blocked ∧
      (read_data_transfer s buffer len).ops = [ROp.now, ROp.recv_bulk len []]) ∨
    ((read_data_transfer s buffer len).status = Status.returned ∧
      ∃ got, (read_data_transfer s buffer len).ops =
        [ROp.now, ROp.recv_bulk len got, ROp.benchmark, ROp.close, ROp.free]) := by
  unfold read_data_transfer
  cases h : recv s buffer len with
  | none => left; exact ⟨rfl, rfl⟩
  | some t => right; exact ⟨rfl, t.2.2, rfl⟩

theorem delivered_one_cases (inbound : List Nat) (found : Nat) :
    delivered inbound found 1 = [] ∨ ∃ b, delivered inbound found 1 = [b] := by
  have h := delivered_length_le inbound found 1
  match hd : delivered inbound found 1 with
  | [] => left; rfl
  | [b] => right; exact ⟨b, rfl⟩
  | _ :: _ :: _ => rw [hd] at h; simp at h

theorem read_data_loop_bulk_after_marker (len : Nat) (avail : List Nat) (buffer inbound : List Nat)
    (hb : buffer.head? ≠ some CH_2) (pre : List ROp) (n : Nat) (got : List Nat)
    (post : List ROp)
    (h : (read_data_loop len buffer inbound avail).ops = pre ++ ROp.recv_bulk n got :: post) :
    ROp.recv_marker [CH_2] ∈ pre := by
  induction avail generalizing buffer inbound pre with
  | nil =>
    rw [read_data_loop] at h
    have hm : ROp.recv_bulk n got ∈ [ROp.recv_marker []] := by
      simp only at h; rw [h]; simp
    simp at hm
  | cons found rest ih =>
    rw [read_data_loop] at h
    by_cases hc : (stored buffer (delivered inbound found 1)).head? = some CH_2
    · rw [if_pos hc] at h
      have hg : delivered inbound found 1 = [CH_2] := by
        rcases delivered_one_cases inbound found with h0 | ⟨b, h1⟩
        · rw [h0, stored_nil] at hc; exact absurd hc hb
        · rw [h1] at hc ⊢
          simp [stored] at hc
          rw [hc]
      rw [hg] at h
      match pre, h with
      | [], h => simp [RRun.after] at h
      | x :: pre', h =>
        simp only [RRun.after, List.singleton_append, List.cons_append, List.cons.injEq] at h
        rw [← h.1]; simp
    · rw [if_neg hc] at h
      match pre, h with
      | [], h => simp [RRun.after] at h
      | x :: pre', h =>
        simp only [RRun.after, List.singleton_append, List.cons_append, List.cons.injEq] at h
        exact List.mem_cons_of_mem _ (ih _ _ hc pre' h.2)

/-- C1: in the stream reader, for every heap content, every incoming stream and
every sequence of receive outcomes, a bulk receive call in the run is preceded by a
1-byte receive that delivered the marker byte `'2'`: no run reaches the bulk receive
while every byte delivered so far differs from `'2'`. -/
theorem read_data_bulk_recv_after_marker (heap : Nat → Nat) (descriptor : Sock) (bytes : Int)
    (pre : List ROp) (len : Nat) (got : List Nat) (post : List ROp)
    (h : (read_data heap descriptor bytes).ops = pre ++ ROp.recv_bulk len got :: post) :
    ROp.recv_marker [CH_2] ∈ pre := by
  unfold read_data at h
  by_cases hb : bytes ≤ 0
  · rw [if_pos hb] at h
    have hm : ROp.recv_bulk len got ∈ [ROp.malloc (size_t bytes), ROp.store CH_1] := by
      simp only at h; rw [h]; simp
    simp at hm
  · rw [if_neg hb] at h
    have hhead : ((malloc heap (size_t bytes)).set 0 CH_1).head? ≠ some CH_2 := by
      cases hm : malloc heap (size_t bytes) <;> simp [CH_1, CH_2]
    match pre, h with
    | [], h => simp [RRun.after] at h
    | [_], h => simp [RRun.after] at h
    | [_, _], h => simp [RRun.after] at h
    | _ :: _ :: _ :: pre', h =>
      simp only [RRun.after, List.cons_append, List.nil_append, List.cons.injEq] at h
      have := read_data_loop_bulk_after_marker _ _ _ _ hhead pre' len got post h.2.2.2
      simp [this]

/-- A stream `'2', 97, 98` where the first 1-byte receive returns nothing. -/
theorem read_data_bulk_recv_after_marker_witness :
    (read_data (fun _ => 0) ⟨[CH_2, 97, 98], [0, 1, 2]⟩ 2).ops =
      [ROp.malloc 2, ROp.store CH_1, ROp.send [CH_1], ROp.recv_marker [],
          ROp.recv_marker [CH_2], ROp.now] ++
        ROp.recv_bulk 2 [97, 98] :: [ROp.benchmark, ROp.close, ROp.free] ∧
    ROp.recv_marker [CH_2] ∈
      [ROp.malloc 2, ROp.store CH_1, ROp.send [CH_1], ROp.recv_marker [],
        ROp.recv_marker [CH_2], ROp.now] :=
  ⟨by decide,
    read_data_bulk_recv_after_marker (fun _ => 0) ⟨[CH_2, 97, 98], [0, 1, 2]⟩ 2
      [ROp.malloc 2, ROp.store CH_1, ROp.send [CH_1], ROp.recv_marker [],
        ROp.recv_marker [CH_2], ROp.now]
      2 [97, 98] [ROp.benchmark, ROp.close, ROp.free] (by decide)⟩

theorem read_data_loop_shape (len : Nat) (avail : List Nat) (buffer inbound : List Nat) :
    ((read_data_loop len buffer inbound avail).status ≠ Status.returned ∧
      ROp.benchmark ∉ (read_data_loop len buffer inbound avail).ops) ∨
    ((read_data_loop len buffer inbound avail).status = Status.returned ∧
      ∃ markers got, (read_data_loop len buffer inbound avail).ops =
        List.map ROp.recv_marker markers ++
          [ROp.now, ROp.recv_bulk len got, ROp.benchmark, ROp.close, ROp.free]) := by
  induction avail generalizing buffer inbound with
  | nil => left; simp [read_data_loop]
  | cons found rest ih =>
    rw [read_data_loop]
    split
    · rcases read_data_transfer_cases
        ⟨inbound.drop (delivered inbound found 1).length, rest⟩
        (stored buffer (delivered inbound found 1)) len with ⟨hs, ho⟩ | ⟨hs, got, ho⟩
      · left
        simp [RRun.after, hs, ho]
      · right
        exact ⟨by simpa [RRun.after] using hs,
          [delivered inbound found 1], got, by simp [RRun.after, ho]⟩
    · rcases ih (stored buffer (delivered inbound found 1))
        (inbound.drop (delivered inbound found 1).length) with
        ⟨hs, ho⟩ | ⟨hs, markers, got, ho⟩
      · left
        exact ⟨by simpa [RRun.after] using hs, by simpa [RRun.after] using ho⟩
      · right
        exact ⟨by simpa [RRun.after] using hs,
          delivered inbound found 1 :: markers, got, by simp [RRun.after, ho]⟩

/-- C8: every run of `read_data` (with `bytes` a C `int`) either never reaches
the report (it faults at the first store, or waits forever in a receive call) or
is exactly: `malloc`, the store of `'1'`, the handshake send of `'1'`, the 1-byte
marker receives, then the timestamp, one receive call of maximum size `bytes`,
the report, and then `close` and `free`.  So one operation lies between the
timestamp and the report, the bulk receive. -/
theorem read_data_timer_brackets_bulk_recv (heap : Nat → Nat) (descriptor : Sock) (bytes : Int)
    (hi : bytes ≤ INT_MAX) :
    ((read_data heap descriptor bytes).status ≠ Status.returned ∧
      ROp.benchmark ∉ (read_data heap descriptor bytes).ops) ∨
    ((read_data heap descriptor bytes).status = Status.returned ∧
      ∃ markers got, (read_data heap descriptor bytes).ops =
        [ROp.malloc bytes.toNat, ROp.store CH_1, ROp.send [CH_1]] ++
          List.map ROp.recv_marker markers ++
          [ROp.now, ROp.recv_bulk bytes.toNat got, ROp.benchmark, ROp.close, ROp.free]) := by
  unfold read_data
  by_cases hb : bytes ≤ 0
  · left; simp [hb]
  · rw [if_neg hb, size_t_of_count bytes (by omega) hi]
    obtain ⟨k, hk⟩ : ∃ k, bytes.toNat = k + 1 := ⟨bytes.toNat - 1, by omega⟩
    have hsend : ((malloc heap bytes.toNat).set 0 CH_1).take 1 = [CH_1] := by
      rw [hk]; simp [malloc, List.range_succ_eq_map]
    rw [hsend]
    rcases read_data_loop_shape bytes.toNat descriptor.avail
      ((malloc heap bytes.toNat).set 0 CH_1) descriptor.inbound with
      ⟨hs, ho⟩ | ⟨hs, markers, got, ho⟩
    · left
      exact ⟨by simpa [RRun.after] using hs, by simpa [RRun.after] using ho⟩
    · right
      exact ⟨by simpa [RRun.after] using hs, markers, got, by simp [RRun.after, ho]⟩

/-- C4: for every `bytes > 0` (a C `int`) and every payload `P` of `bytes` bytes,
if the incoming stream is `'2'` followed by `P`, the marker arrives after any
number of empty 1-byte receives, and the bulk receive finds at least `bytes`
bytes, then `read_data` runs to its end and its buffer after the bulk receive is
`P`. -/
theorem read_data_round_trip (heap : Nat → Nat) (P : List Nat) (bytes : Int)
    (z a1 a2 : Nat) (rest : List Nat) (hb : 0 < bytes) (hi : bytes ≤ INT_MAX)
    (hP : (P.length : Int) = bytes) (h1 : 1 ≤ a1) (h2 : bytes ≤ a2) :
    (read_data heap ⟨CH_2 :: P, List.replicate z 0 ++ a1 :: a2 :: rest⟩ bytes).status =
      Status.returned ∧
    (read_data heap ⟨CH_2 :: P, List.replicate z 0 ++ a1 :: a2 :: rest⟩ bytes).buffer = P := by
  rw [read_data_after_marker heap P bytes z a1 a2 rest hb hi h1]
  refine ⟨rfl, ?_⟩
  have hmin : min a2 bytes.toNat = P.length := by omega
  simp only [hmin, List.take_length, stored]
  have hlen : (CH_2 :: List.drop 1 (malloc heap bytes.toNat)).length = P.length := by
    simp [malloc_length]; omega
  rw [List.drop_of_length_le (by omega)]
  simp

/-- C7, amended: for every `N > 0` (a C `int`) and every payload `P` of `N` bytes
after the marker `'2'`, when the receive call after the marker finds `k >= 1`
bytes, `read_data` issues that one receive call of maximum size `N` and no other:
it runs to its end, and its buffer then holds the first `min k N` bytes of `P` in
order, followed by what `malloc` had left at the indices from `min k N` on. -/
theorem read_data_single_bulk_recv (heap : Nat → Nat) (P : List Nat) (bytes : Int)
    (z a1 k : Nat) (rest : List Nat) (hb : 0 < bytes) (hi : bytes ≤ INT_MAX)
    (hP : (P.length : Int) = bytes) (h1 : 1 ≤ a1) (hk : 1 ≤ k) :
    (read_data heap ⟨CH_2 :: P, List.replicate z 0 ++ a1 :: k :: rest⟩ bytes).status =
      Status.returned ∧
    (read_data heap ⟨CH_2 :: P, List.replicate z 0 ++ a1 :: k :: rest⟩ bytes).ops =
      [ROp.malloc bytes.toNat, ROp.store CH_1, ROp.send [CH_1]] ++
        List.replicate z (ROp.recv_marker []) ++
        [ROp.recv_marker [CH_2], ROp.now, ROp.recv_bulk bytes.toNat (P.take k),
          ROp.benchmark, ROp.close, ROp.free] ∧
    (read_data heap ⟨CH_2 :: P, List.replicate z 0 ++ a1 :: k :: rest⟩ bytes).buffer =
      P.take k ++ (malloc heap bytes.toNat).drop (min k bytes.toNat) := by
  rw [read_data_after_marker heap P bytes z a1 k rest hb hi h1]
  have htake : P.take (min k bytes.toNat) = P.take k := by
    rw [List.take_eq_take]; omega
  rw [htake]
  refine ⟨rfl, rfl, ?_⟩
  simp only [stored, List.length_take]
  have hm : min k P.length = min k bytes.toNat := by omega
  rw [hm]
  obtain ⟨j, hj⟩ : ∃ j, min k bytes.toNat = j + 1 := ⟨min k bytes.toNat - 1, by omega⟩
  rw [hj]
  simp

/-- C7, as the claim states it, fails: with `N = 2`, payload `97, 98` after the
marker and deliveries of one byte each, `read_data` makes one bulk receive that
returns `97` alone, and its buffer ends as `97, 0`, not as the payload. -/
theorem read_data_partial_delivery_counterexample :
    read_data (fun _ => 0) ⟨[CH_2, 97, 98], [1, 1, 1]⟩ 2 =
      ⟨[ROp.malloc 2, ROp.store CH_1, ROp.send [CH_1], ROp.recv_marker [CH_2], ROp.now,
          ROp.recv_bulk 2 [97], ROp.benchmark, ROp.close, ROp.free],
        Status.returned, [97, 0]⟩ ∧
    (read_data (fun _ => 0) ⟨[CH_2, 97, 98], [1, 1, 1]⟩ 2).buffer ≠ [97, 98] := by
  decide

/-- A run with one empty marker receive, then the marker, then the whole payload. -/
theorem read_data_timer_brackets_bulk_recv_witness :
    ((2 : Int) ≤ INT_MAX ∧
      (read_data (fun _ => 0) ⟨[CH_2, 97, 98], [0, 1, 2]⟩ 2).status = Status.returned) ∧
    (((read_data (fun _ => 0) ⟨[CH_2, 97, 98], [0, 1, 2]⟩ 2).status ≠ Status.returned ∧
      ROp.benchmark ∉ (read_data (fun _ => 0) ⟨[CH_2, 97, 98], [0, 1, 2]⟩ 2).ops) ∨
    ((read_data (fun _ => 0) ⟨[CH_2, 97, 98], [0, 1, 2]⟩ 2).status = Status.returned ∧
      ∃ markers got, (read_data (fun _ => 0) ⟨[CH_2, 97, 98], [0, 1, 2]⟩ 2).ops =
        [ROp.malloc (2 : Int).toNat, ROp.store CH_1, ROp.send [CH_1]] ++
          List.map ROp.recv_marker markers ++
          [ROp.now, ROp.recv_bulk (2 : Int).toNat got, ROp.benchmark, ROp.close, ROp.free])) :=
  ⟨by decide,
    read_data_timer_brackets_bulk_recv (fun _ => 0) ⟨[CH_2, 97, 98], [0, 1, 2]⟩ 2 (by decide)⟩

/-- A payload of two bytes that the bulk receive finds whole. -/
theorem read_data_round_trip_witness :
    (read_data (fun _ => 0) ⟨CH_2 :: [97, 98], List.replicate 1 0 ++ 1 :: 2 :: []⟩ 2).status =
      Status.returned ∧
    (read_data (fun _ => 0) ⟨CH_2 :: [97, 98], List.replicate 1 0 ++ 1 :: 2 :: []⟩ 2).buffer =
      [97, 98] :=
  read_data_round_trip (fun _ => 0) [97, 98] 2 1 1 2 [] (by decide) (by decide) (by decide)
    (by decide) (by decide)

/-- A payload of three bytes of which the bulk receive finds two. -/
theorem read_data_single_bulk_recv_witness :
    (read_data (fun _ => 7) ⟨CH_2 :: [97, 98, 99], List.replicate 0 0 ++ 1 :: 2 :: [1]⟩ 3).status =
      Status.returned ∧
    (read_data (fun _ => 7) ⟨CH_2 :: [97, 98, 99], List.replicate 0 0 ++ 1 :: 2 :: [1]⟩ 3).ops =
      [ROp.malloc (3 : Int).toNat, ROp.store CH_1, ROp.send [CH_1]] ++
        List.replicate 0 (ROp.recv_marker []) ++
        [ROp.recv_marker [CH_2], ROp.now, ROp.recv_bulk (3 : Int).toNat ([97, 98, 99].take 2),
          ROp.benchmark, ROp.close, ROp.free] ∧
    (read_data (fun _ => 7) ⟨CH_2 :: [97, 98, 99], List.replicate 0 0 ++ 1 :: 2 :: [1]⟩ 3).buffer =
      [97, 98, 99].take 2 ++ (malloc (fun _ => 7) (3 : Int).toNat).drop (min 2 (3 : Int).toNat) :=
  read_data_single_bulk_recv (fun _ => 7) [97, 98, 99] 3 0 1 2 [1] (by decide) (by decide)
    (by decide) (by decide) (by decide)

end Tcp

end IpcBench
